import Mathlib

/-!
Shallow embedding of the ingestion-and-aggregation pipeline of the
emailintel repository (Retail Price Cut Summary App), with theorems
settling claims C1 to C10 about it.

The embedding covers: the scraper (rate limiting, retrying RSS fetch
with backoff, entry normalization, link deduplication, persistence of
headlines under the URL uniqueness invariant), the summarizer
(word-budget enforcement of generated summaries, topic classification,
batch run logging, cost tracking) and the daily digest (topic grouping
and group ordering, nothing-to-send behavior).

External effects are abstracted as parameters: network fetches become
functions from attempt index to an outcome, the completion-model call
becomes its returned text or raised error, wall-clock timestamps are
integer seconds, and the database becomes explicit list-valued state
threaded through the operations.
-/

namespace EmailIntel

/-! ### Data model -/

/-- A normalized feed entry as built in NewsScraper._fetch_rss_feed
(src/scraper.py lines 163-170): title, link, publish date (kept here
as the raw optional date string: the source parses it best-effort
with a fallback of "now", and no claim inspects it), source name and
the search keyword. -/
structure Article where
  title : String
  link : String
  published : Option String
  source : String
  keyword : String
deriving Repr, DecidableEq

/-- A raw feed entry as feedparser returns it: every field may be
absent (src/scraper.py lines 163-170 read each with a .get default;
the source name is the nested source.title). -/
structure Entry where
  title : Option String
  link : Option String
  published : Option String
  sourceTitle : Option String
deriving Repr, DecidableEq

/-- A stored headlines row (title, link, published_date, source), as
inserted by NewsScraper._save_articles (src/scraper.py lines
239-247). -/
structure Headline where
  title : String
  link : String
  publishedDate : Option String
  source : String
deriving Repr, DecidableEq

/-- A processing_log row (operation_type, status, message,
items_processed). -/
structure LogRow where
  operationType : String
  status : String
  message : String
  itemsProcessed : Nat
deriving Repr, DecidableEq

/-! ### Deduplicator (src/scraper.py, NewsScraper._deduplicate_articles) -/

/-- Model of hashlib.md5(article.link.encode()).hexdigest() at
src/scraper.py line 218: a stable key computed from the link string.
The pipeline treats the digest as a collision-free key of the URL, so
it is modelled by the injective stable key that is the link string
itself. -/
def linkHash (link : String) : String := link

/-- The loop of NewsScraper._deduplicate_articles (src/scraper.py
lines 212-223): walk the articles keeping a set of seen link hashes;
an article is kept exactly when its link hash has not been seen, and
a kept article adds its hash to the seen set. -/
def dedupLoop (seen : List String) : List Article → List Article
  | [] => []
  | a :: rest =>
    if linkHash a.link ∈ seen then dedupLoop seen rest
    else a :: dedupLoop (linkHash a.link :: seen) rest

/-- NewsScraper._deduplicate_articles: first-occurrence-wins
deduplication keyed by the hash of the link, starting from an empty
seen set (scoped to one ingestion call). -/
def deduplicateArticles (articles : List Article) : List Article :=
  dedupLoop [] articles

/-! ### Entry normalization and the retrying fetch
(src/scraper.py, NewsScraper._fetch_rss_feed) -/

/-- Entry normalization at src/scraper.py lines 164-170: absent
fields get safe defaults (title "No title", link "", source
"Unknown"); the publish date string is carried through (the source
parses it best-effort). -/
def entryToArticle (keyword : String) (e : Entry) : Article :=
  { title := e.title.getD "No title"
    link := e.link.getD ""
    published := e.published
    source := e.sourceTitle.getD "Unknown"
    keyword := keyword }

/-- The per-entry loop at src/scraper.py lines 162-173: normalize
each entry and append it only if its link is non-empty (Python
truthiness of article.link). -/
def normalizeEntries (keyword : String) : List Entry → List Article
  | [] => []
  | e :: rest =>
    let article := entryToArticle keyword e
    if article.link ≠ "" then article :: normalizeEntries keyword rest
    else normalizeEntries keyword rest

/-- max_retries at src/scraper.py line 135. -/
def maxRetries : Nat := 3

/-- retry_delay (seconds) at src/scraper.py line 136. -/
def retryDelay : Nat := 1

/-- The retry loop of NewsScraper._fetch_rss_feed (src/scraper.py
lines 138-187), from attempt index `attempt` with `fuel` loop
iterations left (the source loop is for attempt in
range(max_retries), so fuel = maxRetries - attempt; the fuel-0 case
is unreachable from fetchRssFeed). `fetch n` abstracts the network
fetch and parse of attempt n: the parsed feed entries, or the raised
transient request error. The source condition attempt <
max_retries - 1 for sleeping and retrying is exactly fuel - 1 ≠ 0.
Returns (number of attempts performed, the seconds slept between
attempts in order, and the returned article list: the normalized
entries on success, or the empty list that signals failure when the
final attempt fails). -/
def fetchLoop (fetch : Nat → Except String (List Entry)) (keyword : String) :
    Nat → Nat → Nat × List Nat × List Article
  | _, 0 => (0, [], [])
  | attempt, fuel + 1 =>
    match fetch attempt with
    | Except.ok entries => (1, [], normalizeEntries keyword entries)
    | Except.error _ =>
      if fuel = 0 then (1, [], [])
      else
        let r := fetchLoop fetch keyword (attempt + 1) fuel
        (r.1 + 1, retryDelay * 2 ^ attempt :: r.2.1, r.2.2)

/-- NewsScraper._fetch_rss_feed with the network call abstracted as
`fetch`. -/
def fetchRssFeed (fetch : Nat → Except String (List Entry)) (keyword : String) :
    Nat × List Nat × List Article :=
  fetchLoop fetch keyword 0 maxRetries

/-! ### Persistence of articles (src/scraper.py, NewsScraper._save_articles) -/

/-- The headlines row built from an article by the INSERT at
src/scraper.py lines 239-247. -/
def articleRow (a : Article) : Headline :=
  { title := a.title, link := a.link, publishedDate := a.published, source := a.source }

/-- Modelled from the spec: the uniqueness invariant on the stored
Item URL ("Item ... identity = normalized source URL (unique)";
"Invariant: no two stored Items share a URL"). The schema file
(schema.sql, read by src/init_db.py) that declares the headlines
table and its unique link column is not under src/; per the spec, an
insert whose link is already stored violates the uniqueness
invariant and raises sqlite3.IntegrityError, modelled as `none`. A
successful insert appends the row. -/
def insertHeadline (db : List Headline) (a : Article) : Option (List Headline) :=
  if db.any (fun r => r.link == a.link) then none
  else some (db ++ [articleRow a])

/-- One iteration of the loop of NewsScraper._save_articles
(src/scraper.py lines 237-251): try the insert; on success count the
row as newly saved; an IntegrityError (uniqueness conflict) is
swallowed: the state is unchanged and the loop continues with the
next article. -/
def saveStep (st : List Headline × Nat) (a : Article) : List Headline × Nat :=
  match insertHeadline st.1 a with
  | some db2 => (db2, st.2 + 1)
  | none => st

/-- NewsScraper._save_articles: insert every article in order,
returning the resulting table and the count of newly saved rows. -/
def saveArticles (db : List Headline) (articles : List Article) : List Headline × Nat :=
  articles.foldl saveStep (db, 0)

/-! ### RateLimiter (src/scraper.py lines 25-50) -/

/-- RateLimiter state: the configured per-minute threshold and the
per-domain list of recorded request timestamps (defaultdict(list),
empty for unseen domains). Timestamps are modelled as integer
seconds; the source uses time.time() floats, but only comparisons
and the fixed 60-second offset matter. -/
structure RateLimiter where
  maxRequests : Nat
  requests : String → List Int

/-- A fresh limiter with the configured threshold and no recorded
requests. -/
def newRateLimiter (maxRequests : Nat) : RateLimiter :=
  { maxRequests := maxRequests, requests := fun _ => [] }

/-- RateLimiter.can_request (src/scraper.py lines 32-41): at time
`now`, lazily purge the domain's entries that are 60s or older (keep
t > now - 60), store the purged list back, and report whether the
remaining count is under the threshold. Returns the updated state
and the answer. -/
def canRequest (rl : RateLimiter) (domain : String) (now : Int) : RateLimiter × Bool :=
  let purged := (rl.requests domain).filter (fun t => decide (t > now - 60))
  ({ rl with requests := fun d => if d = domain then purged else rl.requests d },
   decide (purged.length < rl.maxRequests))

/-- RateLimiter.add_request (src/scraper.py lines 43-45): append the
current timestamp to the domain's log. -/
def addRequest (rl : RateLimiter) (domain : String) (t : Int) : RateLimiter :=
  { rl with requests := fun d => if d = domain then rl.requests d ++ [t] else rl.requests d }

/-- n successive add_request calls against one domain with the given
timestamps, in order. -/
def recordAll (rl : RateLimiter) (domain : String) (ts : List Int) : RateLimiter :=
  ts.foldl (fun s t => addRequest s domain t) rl

/-! ### Summary word budget (src/summarizer.py, Summarizer._generate_summary) -/

/-- The Python str whitespace characters relevant to str.split() and
str.strip(). -/
def isPySpace (c : Char) : Bool :=
  c == ' ' || c == '\t' || c == '\n' || c == '\r' || c == '\x0b' || c == '\x0c'

/-- Model of Python str.split() with no separator: scan the
characters, splitting on runs of whitespace and dropping empty
fields. `acc` holds the characters of the current word so far, in
reverse. -/
def splitWordsAux : List Char → List Char → List String
  | [], [] => []
  | [], acc => [String.mk acc.reverse]
  | c :: rest, acc =>
    if isPySpace c then
      match acc with
      | [] => splitWordsAux rest []
      | _ :: _ => String.mk acc.reverse :: splitWordsAux rest []
    else splitWordsAux rest (c :: acc)

/-- Python summary.split(): the list of whitespace-separated words. -/
def pySplit (s : String) : List String := splitWordsAux s.data []

/-- Python sep.join(words). -/
def pyJoin (sep : String) : List String → String
  | [] => ""
  | [w] => w
  | w :: rest => w ++ sep ++ pyJoin sep rest

/-- The word-budget enforcement of Summarizer._generate_summary
(src/summarizer.py lines 290-295): when the model output exceeds 40
words, keep the first 40 words joined by single spaces and append an
ellipsis; otherwise return the output unchanged. -/
def enforceWordBudget (summary : String) : String :=
  let wordCount := (pySplit summary).length
  if wordCount > 40 then pyJoin " " ((pySplit summary).take 40) ++ "..."
  else summary

/-! ### TopicClassifier (src/summarizer.py lines 100-166) -/

/-- The fixed closed category set of TopicClassifier (src/summarizer.py
lines 107-118); the last label is the catch-all default. -/
def topics : List String :=
  ["Electronics & Gaming", "Home & Garden", "Clothing & Fashion",
   "Health & Beauty", "Food & Beverages", "Toys & Baby",
   "Sports & Outdoors", "Automotive", "Books & Media", "General Retail"]

/-- Python str.strip(): drop leading and trailing whitespace. -/
def pyStrip (s : String) : String :=
  String.mk (((s.data.dropWhile isPySpace).reverse.dropWhile isPySpace).reverse)

/-- TopicClassifier.classify_topic (src/summarizer.py lines 120-166)
with the completion-model call abstracted: `response` is the text the
model call returns, or the error it raises. The source strips the
returned text, keeps it when the stripped text is exactly one of the
fixed labels, and returns the catch-all "General Retail" for any
other text and for any raised error; no error escapes. -/
def classifyTopic (response : Except String String) : String :=
  match response with
  | Except.error _ => "General Retail"
  | Except.ok text =>
    let classifiedTopic := pyStrip text
    if classifiedTopic ∈ topics then classifiedTopic else "General Retail"

/-! ### Summarizer batch run logging (src/summarizer.py lines 179-217 and 327-346) -/

/-- Summarizer.summarize_new_headlines with the selection and the
per-item work abstracted: `headlines` is the selected batch of
unsummarized headlines (up to 50 in the source) and `itemOk h` is
whether _summarize_headline succeeds on h. With an empty selection
the source returns 0 before any logging, so no RunLog row is
written; otherwise it counts the per-item successes and
_log_operation writes exactly one RunLog row whose status is success
when the count is positive and failure otherwise. Returns the count
and the RunLog rows written. -/
def summarizeNewHeadlines (headlines : List Headline) (itemOk : Headline → Bool) :
    Nat × List LogRow :=
  if headlines.isEmpty then (0, [])
  else
    let summarizedCount := (headlines.filter itemOk).length
    (summarizedCount,
     [{ operationType := "summarize"
        status := if summarizedCount > 0 then "success" else "failure"
        message := "Summarized " ++ toString summarizedCount ++ " of " ++
          toString headlines.length ++ " headlines"
        itemsProcessed := summarizedCount }])

/-! ### DailyDigest grouping and sending (src/emailer.py) -/

/-- One row of the join read by DailyDigest._get_recent_summaries
(src/emailer.py lines 142-170): the summary text with its topic
label (a null stored topic is already defaulted to "General Retail"
on read, so the field is total here). -/
structure SummaryRec where
  topic : String
  summary : String
deriving Repr, DecidableEq

/-- The defaultdict(list) accumulation of DailyDigest._group_by_topic
(src/emailer.py lines 174-179): append each summary to its topic's
group, creating the group at the end on first sight (dict insertion
order). -/
def addToGroup (groups : List (String × List SummaryRec)) (s : SummaryRec) :
    List (String × List SummaryRec) :=
  match groups with
  | [] => [(s.topic, [s])]
  | (t, gs) :: rest =>
    if t = s.topic then (t, gs ++ [s]) :: rest
    else (t, gs) :: addToGroup rest s

/-- Lexicographic order by code point on character lists: the order
Python uses to compare the str component of the sort key. -/
def charListLe : List Char → List Char → Bool
  | [], _ => true
  | _ :: _, [] => false
  | a :: as, b :: bs =>
    if a < b then true
    else if b < a then false
    else charListLe as bs

/-- The sort-key order of DailyDigest._group_by_topic (src/emailer.py
line 182): key = (topic == "General Retail", topic), compared
lexicographically with False < True, so the catch-all label sorts
after every other label and ties break alphabetically. -/
def grKeyLe (a b : String) : Bool :=
  let ag := a == "General Retail"
  let bg := b == "General Retail"
  (!ag && bg) || (ag == bg && charListLe a.data b.data)

/-- DailyDigest._group_by_topic: accumulate the groups in first-seen
order, then sort them by (is-catch-all, topic). Python's sorted is a
stable comparison sort; the group keys are pairwise distinct, so any
comparison sort produces the same list, modelled here with insertion
sort. -/
def groupByTopic (summaries : List SummaryRec) : List (String × List SummaryRec) :=
  List.insertionSort (fun a b => grKeyLe a.1 b.1 = true)
    (summaries.foldl addToGroup [])

/-- Outcome trace of one DailyDigest.send_daily_digest call: how many
mail-send calls happened, the RunLog rows written, and the returned
boolean. -/
structure DigestRun where
  mailSendCalls : Nat
  logRows : List LogRow
  returned : Bool
deriving Repr, DecidableEq

/-- DailyDigest.send_daily_digest (src/emailer.py lines 114-140) with
persistence and mail transport abstracted: `summaries` is the
recent-summaries selection and `sendOk` the transport's reported
outcome. With no summaries the digest is skipped: no mail-send call,
one skipped RunLog row, return True. Otherwise one mail-send call
happens and one RunLog row records its outcome. -/
def sendDailyDigest (summaries : List SummaryRec) (sendOk : Bool) : DigestRun :=
  if summaries.isEmpty then
    { mailSendCalls := 0
      logRows := [{ operationType := "email", status := "skipped",
                    message := "No new summaries", itemsProcessed := 0 }]
      returned := true }
  else
    { mailSendCalls := 1
      logRows := [{ operationType := "email"
                    status := if sendOk then "success" else "failure"
                    message := if sendOk then
                        "Sent digest with " ++ toString summaries.length ++ " summaries"
                      else "Failed to send digest"
                    itemsProcessed := summaries.length }]
      returned := sendOk }

/-! ### CostTracker (src/summarizer.py lines 379-439) -/

/-- A per-day bucket of the cost ledger (src/summarizer.py lines
426-434). Costs are modelled as exact rationals; the source uses
floats, but the claims about the tracker never compare computed
cost values. -/
structure DayCost where
  inputTokens : Nat
  outputTokens : Nat
  cost : ℚ
deriving Repr, DecidableEq

/-- The in-memory cost ledger (CostTracker.costs). -/
structure Costs where
  totalInputTokens : Nat
  totalOutputTokens : Nat
  totalCost : ℚ
  dailyCosts : List (String × DayCost)
deriving Repr, DecidableEq

/-- CostTracker state: the in-memory ledger plus the content of the
persisted ledger file (none when never written). -/
structure CostTracker where
  costs : Costs
  ledgerFile : Option Costs
deriving Repr, DecidableEq

/-- CostTracker.PRICING (src/summarizer.py lines 383-386): price per
1M tokens as (input, output). -/
def PRICING : List (String × ℚ × ℚ) :=
  [("gpt-4o", (5/2, 10)), ("gpt-4o-mini", (3/20, 3/5))]

/-- Python dict item assignment: replace the value under the key, or
append the binding at the end when the key is absent. -/
def setKey (m : List (String × DayCost)) (k : String) (v : DayCost) :
    List (String × DayCost) :=
  match m with
  | [] => [(k, v)]
  | (k0, v0) :: rest =>
    if k0 = k then (k0, v) :: rest else (k0, v0) :: setKey rest k v

/-- CostTracker.add_usage (src/summarizer.py lines 410-439): the two
cumulative token totals are incremented first; then the model is
looked up in PRICING — for a model absent from the table Python
raises KeyError at that subscript, leaving the cumulative cost, the
daily buckets and the persisted file untouched; for a known model
the computed cost is added to the running total and to the current
day's bucket (created zeroed when absent) and the whole ledger is
persisted to the file. Returns the new state and the raised error,
if any. -/
def addUsage (tr : CostTracker) (promptTokens completionTokens : Nat)
    (model today : String) : CostTracker × Option String :=
  let costs1 := { tr.costs with
    totalInputTokens := tr.costs.totalInputTokens + promptTokens
    totalOutputTokens := tr.costs.totalOutputTokens + completionTokens }
  match PRICING.lookup model with
  | none => ({ tr with costs := costs1 }, some ("KeyError: " ++ model))
  | some (inputPrice, outputPrice) =>
    let inputCost := ((promptTokens : ℚ) / 1000000) * inputPrice
    let outputCost := ((completionTokens : ℚ) / 1000000) * outputPrice
    let totalCost := inputCost + outputCost
    let costs2 := { costs1 with totalCost := costs1.totalCost + totalCost }
    let day := (costs2.dailyCosts.lookup today).getD
      { inputTokens := 0, outputTokens := 0, cost := 0 }
    let day2 : DayCost := { inputTokens := day.inputTokens + promptTokens
                            outputTokens := day.outputTokens + completionTokens
                            cost := day.cost + totalCost }
    let costs3 := { costs2 with dailyCosts := setKey costs2.dailyCosts today day2 }
    ({ costs := costs3, ledgerFile := some costs3 }, none)

/-! ## Lemmas about the Deduplicator -/

theorem linkHash_eq (u : String) : linkHash u = u := rfl

theorem dedupLoop_sublist (l : List Article) :
    ∀ seen, (dedupLoop seen l).Sublist l := by
  induction l with
  | nil => intro seen; simp [dedupLoop]
  | cons a rest ih =>
    intro seen
    by_cases h : linkHash a.link ∈ seen
    · simp only [dedupLoop, if_pos h]
      exact (ih seen).cons a
    · simp only [dedupLoop, if_neg h]
      exact (ih _).cons₂ a

theorem dedupLoop_not_seen (l : List Article) :
    ∀ seen a, a ∈ dedupLoop seen l → linkHash a.link ∉ seen := by
  induction l with
  | nil => intro seen a ha; simp [dedupLoop] at ha
  | cons b rest ih =>
    intro seen a ha
    by_cases h : linkHash b.link ∈ seen
    · rw [dedupLoop, if_pos h] at ha
      exact ih seen a ha
    · rw [dedupLoop, if_neg h] at ha
      rcases List.mem_cons.mp ha with rfl | ha2
      · exact h
      · intro hs
        exact ih _ a ha2 (List.mem_cons_of_mem _ hs)

theorem dedupLoop_pairwise (l : List Article) :
    ∀ seen, (dedupLoop seen l).Pairwise
      (fun x y => linkHash x.link ≠ linkHash y.link) := by
  induction l with
  | nil => intro seen; simp [dedupLoop]
  | cons b rest ih =>
    intro seen
    by_cases h : linkHash b.link ∈ seen
    · simpa only [dedupLoop, if_pos h] using ih seen
    · simp only [dedupLoop, if_neg h]
      refine List.Pairwise.cons ?_ (ih _)
      intro y hy he
      exact dedupLoop_not_seen rest _ y hy (he ▸ List.mem_cons_self _ _)

theorem dedupLoop_find (l : List Article) :
    ∀ seen b, b ∈ dedupLoop seen l →
      l.find? (fun x => x.link == b.link) = some b := by
  induction l with
  | nil => intro seen b hb; simp [dedupLoop] at hb
  | cons a rest ih =>
    intro seen b hb
    by_cases h : linkHash a.link ∈ seen
    · rw [dedupLoop, if_pos h] at hb
      have hne : ¬ ((a.link == b.link) = true) := by
        simp only [beq_iff_eq]
        intro he
        exact dedupLoop_not_seen rest seen b hb (he ▸ h)
      rw [@List.find?_cons_of_neg _ (fun x => x.link == b.link) a rest hne]
      exact ih seen b hb
    · rw [dedupLoop, if_neg h] at hb
      rcases List.mem_cons.mp hb with rfl | hb2
      · rw [List.find?_cons_of_pos _ (by simp)]
      · have hb3 := dedupLoop_not_seen rest _ b hb2
        have hne : ¬ ((a.link == b.link) = true) := by
          simp only [beq_iff_eq]
          intro he
          exact hb3 (by rw [← he]; exact List.mem_cons_self _ _)
        rw [@List.find?_cons_of_neg _ (fun x => x.link == b.link) a rest hne]
        exact ih _ b hb2

theorem dedupLoop_covers (l : List Article) :
    ∀ seen a, a ∈ l →
      linkHash a.link ∈ seen ∨ ∃ b ∈ dedupLoop seen l, b.link = a.link := by
  induction l with
  | nil => intro seen a ha; simp at ha
  | cons c rest ih =>
    intro seen a ha
    by_cases h : linkHash c.link ∈ seen
    · rw [dedupLoop, if_pos h]
      rcases List.mem_cons.mp ha with rfl | ha2
      · exact Or.inl h
      · exact ih seen a ha2
    · rw [dedupLoop, if_neg h]
      rcases List.mem_cons.mp ha with rfl | ha2
      · exact Or.inr ⟨a, List.mem_cons_self _ _, rfl⟩
      · rcases ih (linkHash c.link :: seen) a ha2 with hs | ⟨b, hb, he⟩
        · rcases List.mem_cons.mp hs with heq | hs2
          · refine Or.inr ⟨c, List.mem_cons_self _ _, ?_⟩
            rw [linkHash_eq, linkHash_eq] at heq
            exact heq.symm
          · exact Or.inl hs2
        · exact Or.inr ⟨b, List.mem_cons_of_mem _ hb, he⟩

/-! ## Lemmas about persistence (_save_articles) -/

theorem saveStep_fst_cases (db : List Headline) (n : Nat) (a : Article) :
    ((saveStep (db, n) a).1 = db ∧ ∃ r ∈ db, r.link = a.link) ∨
      ((saveStep (db, n) a).1 = db ++ [articleRow a] ∧ ∀ r ∈ db, r.link ≠ a.link) := by
  unfold saveStep insertHeadline
  by_cases hany : db.any (fun r => r.link == a.link) = true
  · rw [if_pos hany]
    rcases List.any_eq_true.mp hany with ⟨r, hr, he⟩
    exact Or.inl ⟨rfl, r, hr, by simpa using he⟩
  · rw [if_neg hany]
    refine Or.inr ⟨rfl, ?_⟩
    intro r hr he
    exact hany (List.any_eq_true.mpr ⟨r, hr, by simp [he]⟩)

theorem saveStep_dup (db : List Headline) (n : Nat) (a : Article)
    (h : ∃ r ∈ db, r.link = a.link) : saveStep (db, n) a = (db, n) := by
  obtain ⟨r, hr, he⟩ := h
  unfold saveStep insertHeadline
  rw [if_pos (List.any_eq_true.mpr ⟨r, hr, by simp [he]⟩)]

theorem foldl_save_fst (arts : List Article) :
    ∀ db n, (arts.foldl saveStep (db, n)).1 = (saveArticles db arts).1 := by
  induction arts with
  | nil => intro db n; rfl
  | cons a rest ih =>
    intro db n
    unfold saveArticles
    simp only [List.foldl_cons]
    unfold saveStep
    cases insertHeadline db a
    · exact (ih db n).trans (ih db 0).symm
    · exact (ih _ (n + 1)).trans (ih _ 1).symm

theorem saveArticles_fst_cons (db : List Headline) (a : Article) (rest : List Article) :
    (saveArticles db (a :: rest)).1 = (saveArticles (saveStep (db, 0) a).1 rest).1 := by
  unfold saveArticles
  simp only [List.foldl_cons]
  exact foldl_save_fst rest (saveStep (db, 0) a).1 (saveStep (db, 0) a).2

theorem saveArticles_pairwise (arts : List Article) :
    ∀ db, db.Pairwise (fun x y => x.link ≠ y.link) →
      (saveArticles db arts).1.Pairwise (fun x y => x.link ≠ y.link) := by
  induction arts with
  | nil => intro db h; exact h
  | cons a rest ih =>
    intro db h
    rw [saveArticles_fst_cons]
    rcases saveStep_fst_cases db 0 a with ⟨h1, _⟩ | ⟨h1, hfresh⟩
    · rw [h1]; exact ih db h
    · rw [h1]
      apply ih
      rw [List.pairwise_append]
      refine ⟨h, List.pairwise_singleton _ _, ?_⟩
      intro x hx y hy
      rw [List.mem_singleton.mp hy]
      exact hfresh x hx

theorem saveArticles_mem (arts : List Article) :
    ∀ db r, r ∈ db → r ∈ (saveArticles db arts).1 := by
  induction arts with
  | nil => intro db r h; exact h
  | cons a rest ih =>
    intro db r h
    rw [saveArticles_fst_cons]
    rcases saveStep_fst_cases db 0 a with ⟨h1, _⟩ | ⟨h1, _⟩
    · rw [h1]; exact ih db r h
    · rw [h1]; exact ih _ r (List.mem_append_left _ h)

theorem saveArticles_covers (arts : List Article) :
    ∀ db a, a ∈ arts → ∃ r ∈ (saveArticles db arts).1, r.link = a.link := by
  induction arts with
  | nil => intro db a h; simp at h
  | cons b rest ih =>
    intro db a h
    rw [saveArticles_fst_cons]
    rcases List.mem_cons.mp h with rfl | h2
    · rcases saveStep_fst_cases db 0 a with ⟨h1, r, hr, he⟩ | ⟨h1, _⟩
      · rw [h1]
        exact ⟨r, saveArticles_mem rest db r hr, he⟩
      · rw [h1]
        refine ⟨articleRow a, ?_, rfl⟩
        exact saveArticles_mem rest _ _ (List.mem_append_right _ (List.mem_singleton_self _))
    · rcases saveStep_fst_cases db 0 b with ⟨h1, _⟩ | ⟨h1, _⟩
      · rw [h1]; exact ih db a h2
      · rw [h1]; exact ih _ a h2

theorem saveArticles_all_present (arts : List Article) :
    ∀ db, (∀ a ∈ arts, ∃ r ∈ db, r.link = a.link) →
      saveArticles db arts = (db, 0) := by
  induction arts with
  | nil => intro db _; rfl
  | cons b rest ih =>
    intro db h
    unfold saveArticles
    rw [List.foldl_cons, saveStep_dup db 0 b (h b (List.mem_cons_self _ _))]
    exact ih db (fun a ha => h a (List.mem_cons_of_mem _ ha))

theorem saveArticles_mem_origin (arts : List Article) :
    ∀ db r, r ∈ (saveArticles db arts).1 →
      r ∈ db ∨ ∃ a ∈ arts, r = articleRow a := by
  induction arts with
  | nil => intro db r h; exact Or.inl h
  | cons b rest ih =>
    intro db r h
    rw [saveArticles_fst_cons] at h
    rcases saveStep_fst_cases db 0 b with ⟨h1, _⟩ | ⟨h1, _⟩
    · rw [h1] at h
      rcases ih db r h with h2 | ⟨a, ha, he⟩
      · exact Or.inl h2
      · exact Or.inr ⟨a, List.mem_cons_of_mem _ ha, he⟩
    · rw [h1] at h
      rcases ih _ r h with h2 | ⟨a, ha, he⟩
      · rcases List.mem_append.mp h2 with h3 | h3
        · exact Or.inl h3
        · exact Or.inr ⟨b, List.mem_cons_self _ _, List.mem_singleton.mp h3⟩
      · exact Or.inr ⟨a, List.mem_cons_of_mem _ ha, he⟩

theorem count_link_eq_one (db : List Headline) (u : String)
    (hnd : db.Pairwise (fun x y => x.link ≠ y.link))
    (hex : ∃ r ∈ db, r.link = u) :
    (db.filter (fun r => r.link == u)).length = 1 := by
  induction db with
  | nil => simp at hex
  | cons r0 rest ih =>
    rw [List.pairwise_cons] at hnd
    by_cases h0 : r0.link = u
    · rw [List.filter_cons_of_pos (by simp [h0])]
      have hnil : rest.filter (fun r => r.link == u) = [] := by
        rw [List.filter_eq_nil_iff]
        intro r hr
        simp only [beq_iff_eq]
        intro he
        exact hnd.1 r hr (h0.trans he.symm)
      simp [hnil]
    · rw [List.filter_cons_of_neg (by simp [h0])]
      apply ih hnd.2
      rcases hex with ⟨r, hr, he⟩
      rcases List.mem_cons.mp hr with rfl | hr2
      · exact absurd he h0
      · exact ⟨r, hr2, he⟩

/-! ## Lemmas about normalization -/

theorem normalizeEntries_links (kw : String) (entries : List Entry) :
    ∀ a ∈ normalizeEntries kw entries, a.link ≠ "" := by
  induction entries with
  | nil => intro a ha; simp [normalizeEntries] at ha
  | cons e rest ih =>
    intro a ha
    simp only [normalizeEntries] at ha
    by_cases h : (entryToArticle kw e).link ≠ ""
    · rw [if_pos h] at ha
      rcases List.mem_cons.mp ha with rfl | ha2
      · exact h
      · exact ih a ha2
    · rw [if_neg h] at ha
      exact ih a ha

/-! ## Lemmas about the RateLimiter -/

theorem recordAll_requests (ts : List Int) :
    ∀ rl domain, (recordAll rl domain ts).requests domain =
      rl.requests domain ++ ts := by
  induction ts with
  | nil => intro rl domain; simp [recordAll]
  | cons t rest ih =>
    intro rl domain
    unfold recordAll
    rw [List.foldl_cons]
    have h2 := ih (addRequest rl domain t) domain
    unfold recordAll at h2
    rw [h2]
    simp [addRequest]

theorem recordAll_max (ts : List Int) :
    ∀ rl domain, (recordAll rl domain ts).maxRequests = rl.maxRequests := by
  induction ts with
  | nil => intro rl domain; rfl
  | cons t rest ih =>
    intro rl domain
    unfold recordAll
    rw [List.foldl_cons]
    have h2 := ih (addRequest rl domain t) domain
    unfold recordAll at h2
    rw [h2]
    rfl

theorem sorted_head_min (ts : List Int) (hs : ts.Sorted (· ≤ ·)) (c : Int) :
    (∃ t ∈ ts, t ≤ c) ↔ ∃ t0, ts.head? = some t0 ∧ t0 ≤ c := by
  cases ts with
  | nil => simp
  | cons t0 rest =>
    simp only [List.head?_cons, Option.some.injEq]
    constructor
    · rintro ⟨t, ht, hle⟩
      refine ⟨t0, rfl, ?_⟩
      rcases List.mem_cons.mp ht with rfl | h2
      · exact hle
      · exact le_trans ((List.sorted_cons.mp hs).1 t h2) hle
    · rintro ⟨x, rfl, hle⟩
      exact ⟨t0, List.mem_cons_self _ _, hle⟩

/-! ## Claim theorems -/

/-- C2: for every sequence of discovered entries, the Deduplicator's
output contains no two entries with equal normalized URLs, is a
subsequence of its input (so the relative order of the kept entries
is preserved), represents every input URL, and every kept entry is
exactly the first occurrence of its URL in the input
(first-occurrence-wins keyed by the stable hash of the URL). -/
theorem C2_deduplicator_first_occurrence (articles : List Article) :
    (deduplicateArticles articles).Pairwise (fun x y => x.link ≠ y.link) ∧
    (deduplicateArticles articles).Sublist articles ∧
    (∀ a ∈ articles, ∃ b ∈ deduplicateArticles articles, b.link = a.link) ∧
    (∀ b ∈ deduplicateArticles articles,
      articles.find? (fun x => x.link == b.link) = some b) := by
  refine ⟨?_, dedupLoop_sublist articles [], ?_, ?_⟩
  · exact (dedupLoop_pairwise articles []).imp
      (fun h he => h (by rw [linkHash_eq, linkHash_eq]; exact he))
  · intro a ha
    rcases dedupLoop_covers articles [] a ha with hs | hex
    · simp at hs
    · exact hex
  · intro b hb
    exact dedupLoop_find articles [] b hb

/-- C1: ingesting the same entries a second time stores nothing new
(the second save leaves the table unchanged and counts zero newly
saved items, each uniqueness conflict being swallowed per-item
without aborting the batch), every ingested entry ends up stored
under exactly one row with its URL, the no-two-rows-share-a-URL
invariant is preserved, and a conflicting article in the middle of a
batch is simply skipped (the batch continues as if it were absent). -/
theorem C1_ingest_idempotent (db : List Headline) (arts : List Article)
    (a dup : Article) (rest : List Article)
    (hnodup : db.Pairwise (fun x y => x.link ≠ y.link))
    (ha : a ∈ arts)
    (hdup : ∃ r ∈ db, r.link = dup.link) :
    saveArticles (saveArticles db arts).1 arts = ((saveArticles db arts).1, 0) ∧
    ((saveArticles (saveArticles db arts).1 arts).1.filter
        (fun r => r.link == a.link)).length = 1 ∧
    (saveArticles (saveArticles db arts).1 arts).1.Pairwise
      (fun x y => x.link ≠ y.link) ∧
    saveArticles db (dup :: rest) = saveArticles db rest := by
  have hsecond : saveArticles (saveArticles db arts).1 arts =
      ((saveArticles db arts).1, 0) :=
    saveArticles_all_present arts _ (fun x hx => saveArticles_covers arts db x hx)
  refine ⟨hsecond, ?_, ?_, ?_⟩
  · rw [hsecond]
    exact count_link_eq_one _ _ (saveArticles_pairwise arts db hnodup)
      (saveArticles_covers arts db a ha)
  · rw [hsecond]
    exact saveArticles_pairwise arts db hnodup
  · unfold saveArticles
    rw [List.foldl_cons, saveStep_dup db 0 dup hdup]

/-- Witness for C1 at concrete inputs: one stored row, a fresh
article and a conflicting article. -/
theorem C1_ingest_idempotent_witness :
    (([⟨"t0", "u0", none, "s0"⟩] : List Headline).Pairwise
        (fun x y => x.link ≠ y.link) ∧
      (⟨"t1", "u1", none, "s1", "k"⟩ : Article) ∈
        [(⟨"t1", "u1", none, "s1", "k"⟩ : Article)] ∧
      ∃ r ∈ ([⟨"t0", "u0", none, "s0"⟩] : List Headline),
        r.link = (⟨"t2", "u0", none, "s2", "k"⟩ : Article).link) ∧
    (saveArticles
        (saveArticles [⟨"t0", "u0", none, "s0"⟩]
          [(⟨"t1", "u1", none, "s1", "k"⟩ : Article)]).1
        [(⟨"t1", "u1", none, "s1", "k"⟩ : Article)] =
      ((saveArticles [⟨"t0", "u0", none, "s0"⟩]
          [(⟨"t1", "u1", none, "s1", "k"⟩ : Article)]).1, 0) ∧
      ((saveArticles
          (saveArticles [⟨"t0", "u0", none, "s0"⟩]
            [(⟨"t1", "u1", none, "s1", "k"⟩ : Article)]).1
          [(⟨"t1", "u1", none, "s1", "k"⟩ : Article)]).1.filter
        (fun r => r.link == (⟨"t1", "u1", none, "s1", "k"⟩ : Article).link)).length = 1 ∧
      (saveArticles
          (saveArticles [⟨"t0", "u0", none, "s0"⟩]
            [(⟨"t1", "u1", none, "s1", "k"⟩ : Article)]).1
          [(⟨"t1", "u1", none, "s1", "k"⟩ : Article)]).1.Pairwise
        (fun x y => x.link ≠ y.link) ∧
      saveArticles [⟨"t0", "u0", none, "s0"⟩]
          [⟨"t2", "u0", none, "s2", "k"⟩, ⟨"t3", "u3", none, "s3", "k"⟩] =
        saveArticles [⟨"t0", "u0", none, "s0"⟩] [⟨"t3", "u3", none, "s3", "k"⟩]) :=
  ⟨⟨by decide, by decide, by decide⟩,
    C1_ingest_idempotent [⟨"t0", "u0", none, "s0"⟩]
      [⟨"t1", "u1", none, "s1", "k"⟩] ⟨"t1", "u1", none, "s1", "k"⟩
      ⟨"t2", "u0", none, "s2", "k"⟩ [⟨"t3", "u3", none, "s3", "k"⟩]
      (by decide) (by decide) (by decide)⟩

/-- C9: entries whose link is absent or empty are dropped during
normalization (the safe default is the empty string and such entries
are excluded), every normalized article carries a non-empty link,
and persistence can only add rows built from articles — so an Item
with an empty URL is never produced nor stored by ingestion. -/
theorem C9_empty_links_never_stored (kw : String) (entries : List Entry) (e : Entry)
    (db : List Headline) (arts : List Article)
    (he : e.link = none ∨ e.link = some "")
    (hdb : ∀ r ∈ db, r.link ≠ "")
    (harts : ∀ x ∈ arts, x.link ≠ "") :
    (∀ a ∈ normalizeEntries kw entries, a.link ≠ "") ∧
    normalizeEntries kw [e] = [] ∧
    (∀ r ∈ (saveArticles db arts).1, r.link ≠ "") := by
  refine ⟨normalizeEntries_links kw entries, ?_, ?_⟩
  · rcases he with h | h <;>
      simp [normalizeEntries, entryToArticle, h]
  · intro r hr
    rcases saveArticles_mem_origin arts db r hr with h | ⟨x, hx, rfl⟩
    · exact hdb r h
    · exact harts x hx

/-- Witness for C9 at concrete inputs: a link-less entry, an
empty-link entry, and a small store. -/
theorem C9_empty_links_never_stored_witness :
    (((⟨none, none, none, none⟩ : Entry).link = none ∨
        (⟨none, none, none, none⟩ : Entry).link = some "") ∧
      (∀ r ∈ ([⟨"t0", "u0", none, "s0"⟩] : List Headline), r.link ≠ "") ∧
      (∀ x ∈ ([⟨"t1", "u1", none, "s1", "k"⟩] : List Article), x.link ≠ "")) ∧
    ((∀ a ∈ normalizeEntries "rollback"
        [⟨some "T", some "u9", none, some "S"⟩, ⟨none, none, none, none⟩],
        a.link ≠ "") ∧
      normalizeEntries "rollback" [(⟨none, none, none, none⟩ : Entry)] = [] ∧
      (∀ r ∈ (saveArticles [⟨"t0", "u0", none, "s0"⟩]
          [⟨"t1", "u1", none, "s1", "k"⟩]).1, r.link ≠ "")) :=
  ⟨⟨by decide, by decide, by decide⟩,
    C9_empty_links_never_stored "rollback"
      [⟨some "T", some "u9", none, some "S"⟩, ⟨none, none, none, none⟩]
      ⟨none, none, none, none⟩ [⟨"t0", "u0", none, "s0"⟩]
      [⟨"t1", "u1", none, "s1", "k"⟩]
      (by decide) (by decide) (by decide)⟩

/-- C3: after n recorded requests against host h whose timestamps all
lie in the trailing 60-second window at time `now` (given oldest
first), can_request at `now` answers true exactly while n is below
the threshold (so false exactly once n has reached it); when n equals
the threshold, a later check at `now2` answers true exactly when the
oldest recorded timestamp has aged past 60 seconds; and the check
lazily purges the host's log down to the entries still inside the
trailing window. -/
theorem C3_rate_limiter_window (max : Nat) (h : String) (ts : List Int)
    (now now2 : Int)
    (hin : ∀ t ∈ ts, now - 60 < t ∧ t ≤ now)
    (hsorted : ts.Sorted (· ≤ ·))
    (_hle : now ≤ now2) :
    ((canRequest (recordAll (newRateLimiter max) h ts) h now).2 = true ↔
      ts.length < max) ∧
    (ts.length = max →
      ((canRequest (recordAll (newRateLimiter max) h ts) h now2).2 = true ↔
        ∃ t0, ts.head? = some t0 ∧ t0 ≤ now2 - 60)) ∧
    (canRequest (recordAll (newRateLimiter max) h ts) h now2).1.requests h =
      ts.filter (fun t => decide (t > now2 - 60)) := by
  have hreq : (recordAll (newRateLimiter max) h ts).requests h = ts := by
    rw [recordAll_requests]
    rfl
  have hmax : (recordAll (newRateLimiter max) h ts).maxRequests = max :=
    recordAll_max ts _ h
  refine ⟨?_, ?_, ?_⟩
  · unfold canRequest
    simp only [hreq, hmax, decide_eq_true_eq]
    rw [List.filter_eq_self.mpr (fun t ht => decide_eq_true (hin t ht).1)]
  · intro hlen
    unfold canRequest
    simp only [hreq, hmax, decide_eq_true_eq]
    rw [← sorted_head_min ts hsorted (now2 - 60)]
    rw [← hlen]
    rw [List.length_filter_lt_length_iff_exists]
    constructor
    · rintro ⟨t, ht, hnp⟩
      refine ⟨t, ht, ?_⟩
      simpa using hnp
    · rintro ⟨t, ht, hle2⟩
      refine ⟨t, ht, ?_⟩
      simpa using hle2
  · unfold canRequest
    simp only [hreq]
    simp

/-- Witness for C3 at concrete inputs: threshold 2, two requests at
times 0 and 10, checked at times 10 and 70. -/
theorem C3_rate_limiter_window_witness :
    ((∀ t ∈ ([0, 10] : List Int), 10 - 60 < t ∧ t ≤ 10) ∧
      ([0, 10] : List Int).Sorted (· ≤ ·) ∧ (10 : Int) ≤ 70) ∧
    (((canRequest (recordAll (newRateLimiter 2) "news.google.com" [0, 10])
        "news.google.com" 10).2 = true ↔ ([0, 10] : List Int).length < 2) ∧
      (([0, 10] : List Int).length = 2 →
        ((canRequest (recordAll (newRateLimiter 2) "news.google.com" [0, 10])
          "news.google.com" 70).2 = true ↔
          ∃ t0, ([0, 10] : List Int).head? = some t0 ∧ t0 ≤ 70 - 60)) ∧
      (canRequest (recordAll (newRateLimiter 2) "news.google.com" [0, 10])
        "news.google.com" 70).1.requests "news.google.com" =
        ([0, 10] : List Int).filter (fun t => decide (t > 70 - 60))) :=
  ⟨⟨by decide, by decide, by decide⟩,
    C3_rate_limiter_window 2 "news.google.com" [0, 10] 10 70
      (by decide) (by decide) (by decide)⟩

/-- Definitional unfolding of one retry-loop iteration. -/
theorem fetchLoop_succ (fetch : Nat → Except String (List Entry)) (kw : String)
    (attempt fuel : Nat) :
    fetchLoop fetch kw attempt (fuel + 1) =
      match fetch attempt with
      | Except.ok entries => (1, [], normalizeEntries kw entries)
      | Except.error _ =>
        if fuel = 0 then (1, [], [])
        else
          let r := fetchLoop fetch kw (attempt + 1) fuel
          (r.1 + 1, retryDelay * 2 ^ attempt :: r.2.1, r.2.2) := rfl

/-- C4: a fetch that raises transient errors on the first two
attempts and succeeds on the third makes exactly 3 attempts, sleeps
retryDelay * 2 ^ (attempt - 1) seconds between attempts (1s then 2s),
and returns the successful payload (the normalized entries); a fetch
that fails on every attempt also stops after the third attempt with
the same two sleeps and returns the empty article list — the value
_fetch_rss_feed uses to signal the error to its caller — without any
further retry. -/
theorem C4_retrying_fetcher (fetch fetchFail : Nat → Except String (List Entry))
    (kw : String) (entries : List Entry) (e0 e1 : String)
    (h0 : fetch 0 = Except.error e0) (h1 : fetch 1 = Except.error e1)
    (h2 : fetch 2 = Except.ok entries)
    (hfail : ∀ n, n < maxRetries → ∃ e, fetchFail n = Except.error e) :
    fetchRssFeed fetch kw = (3, [1, 2], normalizeEntries kw entries) ∧
    fetchRssFeed fetchFail kw = (3, [1, 2], []) := by
  obtain ⟨f0, hf0⟩ := hfail 0 (by norm_num [maxRetries])
  obtain ⟨f1, hf1⟩ := hfail 1 (by norm_num [maxRetries])
  obtain ⟨f2, hf2⟩ := hfail 2 (by norm_num [maxRetries])
  constructor
  · have l2 : fetchLoop fetch kw 2 1 = (1, [], normalizeEntries kw entries) := by
      rw [show (1 : Nat) = 0 + 1 from rfl, fetchLoop_succ, h2]
    have l1 : fetchLoop fetch kw 1 2 = (2, [2], normalizeEntries kw entries) := by
      rw [show (2 : Nat) = 1 + 1 from rfl, fetchLoop_succ, h1]
      simp [l2, retryDelay]
    have l0 : fetchLoop fetch kw 0 3 = (3, [1, 2], normalizeEntries kw entries) := by
      rw [show (3 : Nat) = 2 + 1 from rfl, fetchLoop_succ, h0]
      simp [l1, retryDelay]
    unfold fetchRssFeed maxRetries
    exact l0
  · have l2 : fetchLoop fetchFail kw 2 1 = (1, [], []) := by
      rw [show (1 : Nat) = 0 + 1 from rfl, fetchLoop_succ, hf2]
      rfl
    have l1 : fetchLoop fetchFail kw 1 2 = (2, [2], []) := by
      rw [show (2 : Nat) = 1 + 1 from rfl, fetchLoop_succ, hf1]
      simp [l2, retryDelay]
    have l0 : fetchLoop fetchFail kw 0 3 = (3, [1, 2], []) := by
      rw [show (3 : Nat) = 2 + 1 from rfl, fetchLoop_succ, hf0]
      simp [l1, retryDelay]
    unfold fetchRssFeed maxRetries
    exact l0

/-- Witness for C4 at concrete fetch functions: one failing twice
then succeeding with an empty feed, one always failing. -/
theorem C4_retrying_fetcher_witness :
    fetchRssFeed
        (fun n => if n < 2 then Except.error "boom" else Except.ok ([] : List Entry))
        "rollback" = (3, [1, 2], normalizeEntries "rollback" []) ∧
    fetchRssFeed (fun _ => Except.error "boom") "rollback" = (3, [1, 2], []) :=
  C4_retrying_fetcher
    (fun n => if n < 2 then Except.error "boom" else Except.ok ([] : List Entry))
    (fun _ => Except.error "boom") "rollback" [] "boom" "boom"
    rfl rfl rfl (fun _ _ => ⟨"boom", rfl⟩)

/-! ## Lemmas about Python split and join -/

theorem splitWordsAux_words_ok (l : List Char) :
    ∀ acc, (∀ c ∈ acc, isPySpace c = false) →
      ∀ w ∈ splitWordsAux l acc,
        w.data ≠ [] ∧ ∀ c ∈ w.data, isPySpace c = false := by
  induction l with
  | nil =>
    intro acc hacc w hw
    cases acc with
    | nil => simp [splitWordsAux] at hw
    | cons a as =>
      simp only [splitWordsAux, List.mem_singleton] at hw
      subst hw
      constructor
      · simp
      · intro c hc
        exact hacc c (List.mem_reverse.mp hc)
  | cons c rest ih =>
    intro acc hacc w hw
    simp only [splitWordsAux] at hw
    by_cases hsp : isPySpace c = true
    · rw [if_pos hsp] at hw
      cases acc with
      | nil => exact ih [] (by simp) w hw
      | cons a as =>
        rcases List.mem_cons.mp hw with rfl | hw2
        · constructor
          · simp
          · intro x hx
            exact hacc x (List.mem_reverse.mp hx)
        · exact ih [] (by simp) w hw2
    · rw [if_neg hsp] at hw
      refine ih (c :: acc) ?_ w hw
      intro x hx
      rcases List.mem_cons.mp hx with rfl | hx2
      · exact Bool.eq_false_iff.mpr hsp
      · exact hacc x hx2

theorem splitWordsAux_chomp (wc : List Char)
    (hwc : ∀ c ∈ wc, isPySpace c = false) :
    ∀ rest acc, splitWordsAux (wc ++ rest) acc =
      splitWordsAux rest (wc.reverse ++ acc) := by
  induction wc with
  | nil => intro rest acc; simp
  | cons c wc2 ih =>
    intro rest acc
    have hc : isPySpace c = false := hwc c (List.mem_cons_self _ _)
    have hwc2 : ∀ x ∈ wc2, isPySpace x = false :=
      fun x hx => hwc x (List.mem_cons_of_mem _ hx)
    show splitWordsAux (c :: (wc2 ++ rest)) acc = _
    simp only [splitWordsAux]
    rw [if_neg (by simp [hc])]
    rw [ih hwc2 rest (c :: acc)]
    simp

theorem splitWordsAux_end (acc : List Char) (h : acc ≠ []) :
    splitWordsAux [] acc = [String.mk acc.reverse] := by
  cases acc with
  | nil => exact absurd rfl h
  | cons a as => rfl

theorem splitWordsAux_space (rest acc : List Char) (h : acc ≠ []) :
    splitWordsAux (' ' :: rest) acc =
      String.mk acc.reverse :: splitWordsAux rest [] := by
  cases acc with
  | nil => exact absurd rfl h
  | cons a as => rfl

theorem pySplit_join_length (ws : List String) :
    ∀ sfx : List Char,
      (∀ w ∈ ws, w.data ≠ [] ∧ ∀ c ∈ w.data, isPySpace c = false) →
      (∀ c ∈ sfx, isPySpace c = false) → ws ≠ [] →
      (splitWordsAux ((pyJoin " " ws).data ++ sfx) []).length = ws.length := by
  induction ws with
  | nil => intro sfx _ _ hne; exact absurd rfl hne
  | cons w ws2 ih =>
    intro sfx hws hsfx _
    have hw := hws w (List.mem_cons_self _ _)
    cases ws2 with
    | nil =>
      show (splitWordsAux (w.data ++ sfx) []).length = 1
      rw [splitWordsAux_chomp w.data hw.2 sfx []]
      rw [← List.append_nil sfx, splitWordsAux_chomp sfx hsfx [] _]
      rw [splitWordsAux_end]
      · rfl
      · simp only [ne_eq, List.append_eq_nil, List.reverse_eq_nil_iff, not_and]
        intro _ hd
        exact absurd hd hw.1
    | cons v ws3 =>
      have hsp : (" " : String).data = [' '] := by decide
      have hdata : (pyJoin " " (w :: v :: ws3)).data =
          w.data ++ ' ' :: (pyJoin " " (v :: ws3)).data := by
        show (w ++ " " ++ pyJoin " " (v :: ws3)).data = _
        rw [String.data_append, String.data_append, hsp, List.append_assoc]
        rfl
      rw [hdata, List.append_assoc, splitWordsAux_chomp w.data hw.2,
        List.append_nil]
      rw [List.cons_append, splitWordsAux_space _ _
        (by simp only [ne_eq, List.reverse_eq_nil_iff]; exact hw.1)]
      rw [List.length_cons]
      rw [ih sfx (fun x hx => hws x (List.mem_cons_of_mem _ hx)) hsfx
        (List.cons_ne_nil _ _)]
      rfl

/-- C5: a model output of at most 40 words is stored unchanged; an
output of more than 40 words is truncated to exactly the first 40
words joined by single spaces followed by the ellipsis marker, and
the truncated summary indeed has exactly 40 whitespace-separated
words (with the marker glued to the last one). -/
theorem C5_summary_word_budget (s : String) :
    ((pySplit s).length ≤ 40 → enforceWordBudget s = s) ∧
    ((pySplit s).length > 40 →
      enforceWordBudget s = pyJoin " " ((pySplit s).take 40) ++ "..." ∧
      (pySplit (enforceWordBudget s)).length = 40) := by
  constructor
  · intro h
    simp only [enforceWordBudget]
    rw [if_neg (by omega)]
  · intro h
    have he : enforceWordBudget s = pyJoin " " ((pySplit s).take 40) ++ "..." := by
      simp only [enforceWordBudget]
      rw [if_pos h]
    refine ⟨he, ?_⟩
    rw [he]
    show (splitWordsAux (pyJoin " " ((pySplit s).take 40) ++ "...").data []).length = 40
    rw [String.data_append]
    have hws : ∀ w ∈ (pySplit s).take 40,
        w.data ≠ [] ∧ ∀ c ∈ w.data, isPySpace c = false :=
      fun w hw =>
        splitWordsAux_words_ok s.data [] (by simp) w (List.mem_of_mem_take hw)
    have hlen : ((pySplit s).take 40).length = 40 := by
      rw [List.length_take]
      omega
    have hne : (pySplit s).take 40 ≠ [] := by
      intro hnil
      rw [hnil] at hlen
      simp at hlen
    rw [pySplit_join_length ((pySplit s).take 40) ("...".data) hws (by decide) hne]
    exact hlen

/-- Witness for C5 at concrete strings: a 2-word output kept
unchanged and a 41-word output truncated to 40 words. -/
theorem C5_summary_word_budget_witness :
    ((pySplit "Walmart cuts prices").length ≤ 40 ∧
      enforceWordBudget "Walmart cuts prices" = "Walmart cuts prices") ∧
    ((pySplit "w w w w w w w w w w w w w w w w w w w w w w w w w w w w w w w w w w w w w w w w w").length > 40 ∧
      (pySplit (enforceWordBudget "w w w w w w w w w w w w w w w w w w w w w w w w w w w w w w w w w w w w w w w w w")).length = 40) :=
  ⟨⟨by decide, (C5_summary_word_budget "Walmart cuts prices").1 (by decide)⟩,
    ⟨by decide,
      ((C5_summary_word_budget
        "w w w w w w w w w w w w w w w w w w w w w w w w w w w w w w w w w w w w w w w w w").2
        (by decide)).2⟩⟩

/-- C6 counterexample: the claim as stated says any returned text
that is not an exact match of a label maps to the catch-all default;
but classify_topic strips the returned text before matching, so the
raw text " Automotive " — not an exact label match — is classified
as "Automotive", not as "General Retail". -/
theorem C6_classifier_counterexample :
    classifyTopic (Except.ok " Automotive ") = "Automotive" ∧
    " Automotive " ∉ topics ∧
    "Automotive" ≠ "General Retail" := by decide

/-- C6 amended: classify always returns an element of the fixed
10-label set; a raised model error yields the catch-all default, and
a returned text that after stripping surrounding whitespace is not an
exact match of a label yields the catch-all default; the call is a
total function, so no error escapes to the enclosing operation. -/
theorem C6_classifier_default (response : Except String String) :
    classifyTopic response ∈ topics ∧
    (∀ e, response = Except.error e → classifyTopic response = "General Retail") ∧
    (∀ t, response = Except.ok t → pyStrip t ∉ topics →
      classifyTopic response = "General Retail") := by
  refine ⟨?_, ?_, ?_⟩
  · cases response with
    | error e =>
      show ("General Retail" : String) ∈ topics
      decide
    | ok t =>
      simp only [classifyTopic]
      by_cases h : pyStrip t ∈ topics
      · rw [if_pos h]
        exact h
      · rw [if_neg h]
        decide
  · intro e he
    subst he
    rfl
  · intro t ht hts
    subst ht
    simp only [classifyTopic]
    rw [if_neg hts]

/-- Witness for C6 at concrete responses: a raised error and a
non-label text. -/
theorem C6_classifier_default_witness :
    classifyTopic (Except.error "APIError") = "General Retail" ∧
    pyStrip "  half off everything  " ∉ topics ∧
    classifyTopic (Except.ok "  half off everything  ") = "General Retail" :=
  ⟨(C6_classifier_default (Except.error "APIError")).2.1 "APIError" rfl,
    by decide,
    (C6_classifier_default (Except.ok "  half off everything  ")).2.2
      "  half off everything  " rfl (by decide)⟩

/-! ## Lemmas about the digest group ordering -/

theorem charListLe_total (a : List Char) :
    ∀ b, charListLe a b = true ∨ charListLe b a = true := by
  induction a with
  | nil => intro b; exact Or.inl rfl
  | cons x xs ih =>
    intro b
    cases b with
    | nil => exact Or.inr rfl
    | cons y ys =>
      rcases lt_trichotomy x y with h | h | h
      · left
        simp only [charListLe]
        rw [if_pos h]
      · subst h
        have hirr : ¬ x < x := lt_irrefl x
        rcases ih ys with h2 | h2
        · left
          simp only [charListLe]
          rw [if_neg hirr, if_neg hirr]
          exact h2
        · right
          simp only [charListLe]
          rw [if_neg hirr, if_neg hirr]
          exact h2
      · right
        simp only [charListLe]
        rw [if_pos h]

theorem charListLe_trans (a : List Char) :
    ∀ b c, charListLe a b = true → charListLe b c = true →
      charListLe a c = true := by
  induction a with
  | nil => intro b c _ _; rfl
  | cons x xs ih =>
    intro b c hab hbc
    cases b with
    | nil => simp [charListLe] at hab
    | cons y ys =>
      cases c with
      | nil => simp [charListLe] at hbc
      | cons z zs =>
        simp only [charListLe] at hab hbc ⊢
        rcases lt_trichotomy x y with h1 | h1 | h1
        · rcases lt_trichotomy y z with h2 | h2 | h2
          · rw [if_pos (lt_trans h1 h2)]
          · subst h2
            rw [if_pos h1]
          · rw [if_neg (lt_asymm h2), if_pos h2] at hbc
            simp at hbc
        · subst h1
          rw [if_neg (lt_irrefl x), if_neg (lt_irrefl x)] at hab
          rcases lt_trichotomy x z with h2 | h2 | h2
          · rw [if_pos h2]
          · subst h2
            rw [if_neg (lt_irrefl x), if_neg (lt_irrefl x)] at hbc ⊢
            exact ih ys zs hab hbc
          · rw [if_neg (lt_asymm h2), if_pos h2] at hbc
            simp at hbc
        · rw [if_neg (lt_asymm h1), if_pos h1] at hab
          simp at hab

theorem charListLe_antisymm (a : List Char) :
    ∀ b, charListLe a b = true → charListLe b a = true → a = b := by
  induction a with
  | nil =>
    intro b _ hba
    cases b with
    | nil => rfl
    | cons y ys => simp [charListLe] at hba
  | cons x xs ih =>
    intro b hab hba
    cases b with
    | nil => simp [charListLe] at hab
    | cons y ys =>
      simp only [charListLe] at hab hba
      rcases lt_trichotomy x y with h | h | h
      · rw [if_neg (lt_asymm h), if_pos h] at hba
        simp at hba
      · subst h
        rw [if_neg (lt_irrefl x), if_neg (lt_irrefl x)] at hab hba
        rw [ih ys hab hba]
      · rw [if_neg (lt_asymm h), if_pos h] at hab
        simp at hab

theorem grKeyLe_total (a b : String) :
    grKeyLe a b = true ∨ grKeyLe b a = true := by
  simp only [grKeyLe]
  cases hag : (a == "General Retail") <;> cases hbg : (b == "General Retail")
  · simpa using charListLe_total a.data b.data
  · left; rfl
  · right; rfl
  · simpa using charListLe_total a.data b.data

theorem grKeyLe_trans (a b c : String) (hab : grKeyLe a b = true)
    (hbc : grKeyLe b c = true) : grKeyLe a c = true := by
  simp only [grKeyLe] at hab hbc ⊢
  cases hag : (a == "General Retail") <;> cases hbg : (b == "General Retail") <;>
    cases hcg : (c == "General Retail") <;>
      rw [hag, hbg] at hab <;> rw [hbg, hcg] at hbc <;> simp_all
  exact charListLe_trans a.data b.data c.data hab hbc

theorem grKeyLe_strict (a b : String) (hle : grKeyLe a b = true) (hne : a ≠ b) :
    (a ≠ "General Retail" ∧ b = "General Retail") ∨
    (a ≠ "General Retail" ∧ b ≠ "General Retail" ∧
      charListLe a.data b.data = true ∧ a ≠ b) := by
  by_cases hag : a = "General Retail"
  · by_cases hbg : b = "General Retail"
    · exact absurd (hag.trans hbg.symm) hne
    · subst hag
      have hb : (b == "General Retail") = false := by
        simpa using (fun h => hbg h)
      simp [grKeyLe, hb] at hle
  · by_cases hbg : b = "General Retail"
    · exact Or.inl ⟨hag, hbg⟩
    · refine Or.inr ⟨hag, hbg, ?_, hne⟩
      have ha : (a == "General Retail") = false := by
        simpa using (fun h => hag h)
      have hb : (b == "General Retail") = false := by
        simpa using (fun h => hbg h)
      simp only [grKeyLe, ha, hb] at hle
      simpa using hle

theorem addToGroup_keys (groups : List (String × List SummaryRec)) (s : SummaryRec) :
    (addToGroup groups s).map Prod.fst =
      if s.topic ∈ groups.map Prod.fst then groups.map Prod.fst
      else groups.map Prod.fst ++ [s.topic] := by
  induction groups with
  | nil => simp [addToGroup]
  | cons g rest ih =>
    obtain ⟨t, gs⟩ := g
    simp only [addToGroup]
    by_cases h : t = s.topic
    · rw [if_pos h]
      have : s.topic ∈ ((t, gs) :: rest).map Prod.fst := by
        simp [h.symm]
      rw [if_pos this]
      simp
    · rw [if_neg h]
      by_cases h2 : s.topic ∈ rest.map Prod.fst
      · have : s.topic ∈ ((t, gs) :: rest).map Prod.fst := by
          simp [h2]
        rw [if_pos this]
        simp only [List.map_cons]
        rw [ih, if_pos h2]
      · have : s.topic ∉ ((t, gs) :: rest).map Prod.fst := by
          simp only [List.map_cons, List.mem_cons]
          rintro (heq | hmem)
          · exact h heq.symm
          · exact h2 hmem
        rw [if_neg this]
        simp only [List.map_cons]
        rw [ih, if_neg h2]
        simp

theorem groups_keys_nodup (ss : List SummaryRec) :
    ∀ g : List (String × List SummaryRec), (g.map Prod.fst).Nodup →
      ((ss.foldl addToGroup g).map Prod.fst).Nodup := by
  induction ss with
  | nil => intro g h; exact h
  | cons s rest ih =>
    intro g h
    rw [List.foldl_cons]
    apply ih
    rw [addToGroup_keys]
    by_cases h2 : s.topic ∈ g.map Prod.fst
    · rw [if_pos h2]
      exact h
    · rw [if_neg h2]
      rw [List.nodup_append]
      refine ⟨h, List.nodup_singleton _, ?_⟩
      intro x hx hx2
      rw [List.mem_singleton.mp hx2] at hx
      exact h2 hx

/-- C7: the DigestBuilder's group iteration order lists group labels
pairwise so that the catch-all "General Retail" comes after every
other label and any two non-catch-all labels appear in strict
alphabetical (code-point lexicographic) order; and with zero recent
summaries send_daily_digest makes no mail-send call, writes one
skipped RunLog row, and reports success (nothing to send is not an
error). -/
theorem C7_digest_grouping (summaries : List SummaryRec) (sendOk : Bool) :
    ((groupByTopic summaries).map Prod.fst).Pairwise
      (fun x y => (x ≠ "General Retail" ∧ y = "General Retail") ∨
        (x ≠ "General Retail" ∧ y ≠ "General Retail" ∧
          charListLe x.data y.data = true ∧ x ≠ y)) ∧
    sendDailyDigest [] sendOk =
      { mailSendCalls := 0
        logRows := [{ operationType := "email", status := "skipped",
                      message := "No new summaries", itemsProcessed := 0 }]
        returned := true } := by
  constructor
  · unfold groupByTopic
    have hnd : ((List.insertionSort (fun a b => grKeyLe a.1 b.1 = true)
        (summaries.foldl addToGroup [])).map Prod.fst).Nodup := by
      have hperm := List.perm_insertionSort
        (fun a b : String × List SummaryRec => grKeyLe a.1 b.1 = true)
        (summaries.foldl addToGroup [])
      exact ((hperm.map Prod.fst).symm).nodup
        (groups_keys_nodup summaries [] (by simp))
    have hsorted : (List.insertionSort (fun a b => grKeyLe a.1 b.1 = true)
        (summaries.foldl addToGroup [])).Pairwise
          (fun a b => grKeyLe a.1 b.1 = true) := by
      haveI : IsTotal (String × List SummaryRec)
          (fun a b => grKeyLe a.1 b.1 = true) :=
        ⟨fun a b => grKeyLe_total a.1 b.1⟩
      haveI : IsTrans (String × List SummaryRec)
          (fun a b => grKeyLe a.1 b.1 = true) :=
        ⟨fun a b c => grKeyLe_trans a.1 b.1 c.1⟩
      exact List.sorted_insertionSort _ _
    have hpw := hsorted.and (List.pairwise_map.mp hnd)
    rw [List.pairwise_map]
    exact hpw.imp (fun h => grKeyLe_strict _ _ h.1 h.2)
  · rfl

/-- C8 counterexample: the claim says every invocation — including
one that selects zero unsummarized Items — emits exactly one RunLog
row; but summarize_new_headlines returns 0 before any logging when
the selection is empty, so zero RunLog rows are emitted there, not
one. -/
theorem C8_runlog_counterexample :
    (summarizeNewHeadlines [] (fun _ => true)).2 = [] ∧
    ¬ (summarizeNewHeadlines [] (fun _ => true)).2.length = 1 := by decide

/-- C8 amended: an invocation whose selection of unsummarized Items
is non-empty emits exactly one RunLog row for the whole batch, with
status success if the summarized count is positive and failure
otherwise; an invocation that selects zero Items emits no RunLog row
and returns 0. -/
theorem C8_runlog_single_row (headlines : List Headline)
    (itemOk : Headline → Bool) (hne : headlines ≠ []) :
    (summarizeNewHeadlines headlines itemOk).2.length = 1 ∧
    (∀ row ∈ (summarizeNewHeadlines headlines itemOk).2,
      row.status =
        if 0 < (summarizeNewHeadlines headlines itemOk).1 then "success"
        else "failure") ∧
    summarizeNewHeadlines [] itemOk = (0, []) := by
  have hemp : headlines.isEmpty = false := by
    cases headlines with
    | nil => exact absurd rfl hne
    | cons h t => rfl
  refine ⟨?_, ?_, rfl⟩
  · simp [summarizeNewHeadlines, hemp]
  · intro row hrow
    simp only [summarizeNewHeadlines, hemp, Bool.false_eq_true, if_false,
      List.mem_singleton] at hrow ⊢
    subst hrow
    simp only [gt_iff_lt]

/-- Witness for C8 at a concrete one-headline batch whose item
succeeds. -/
theorem C8_runlog_single_row_witness :
    ([(⟨"t", "u", none, "s"⟩ : Headline)] ≠ []) ∧
    ((summarizeNewHeadlines [⟨"t", "u", none, "s"⟩] (fun _ => true)).2.length = 1 ∧
      (∀ row ∈ (summarizeNewHeadlines [⟨"t", "u", none, "s"⟩] (fun _ => true)).2,
        row.status =
          if 0 < (summarizeNewHeadlines [⟨"t", "u", none, "s"⟩] (fun _ => true)).1
          then "success" else "failure") ∧
      summarizeNewHeadlines [] (fun _ : Headline => true) = (0, [])) :=
  ⟨by decide,
    C8_runlog_single_row [⟨"t", "u", none, "s"⟩] (fun _ => true) (by decide)⟩

/-- C10: calling the CostTracker with a model identifier absent from
the fixed pricing table raises an error only after the cumulative
input and output token totals have been incremented, while the
cumulative cost, the daily buckets and the persisted ledger file are
left exactly as they were — the update is not atomic on error. -/
theorem C10_cost_tracker_nonatomic (tr : CostTracker) (p c : Nat)
    (model today : String) (hmodel : PRICING.lookup model = none) :
    ((addUsage tr p c model today).2).isSome = true ∧
    (addUsage tr p c model today).1.costs.totalInputTokens =
      tr.costs.totalInputTokens + p ∧
    (addUsage tr p c model today).1.costs.totalOutputTokens =
      tr.costs.totalOutputTokens + c ∧
    (addUsage tr p c model today).1.costs.totalCost = tr.costs.totalCost ∧
    (addUsage tr p c model today).1.costs.dailyCosts = tr.costs.dailyCosts ∧
    (addUsage tr p c model today).1.ledgerFile = tr.ledgerFile := by
  simp [addUsage, hmodel]

/-- Witness for C10 at a concrete tracker and the unknown model
identifier "gpt-5". -/
theorem C10_cost_tracker_nonatomic_witness :
    PRICING.lookup "gpt-5" = none ∧
    (((addUsage ⟨⟨7, 8, 0, []⟩, none⟩ 5 6 "gpt-5" "2026-10-12").2).isSome = true ∧
      (addUsage ⟨⟨7, 8, 0, []⟩, none⟩ 5 6 "gpt-5" "2026-10-12").1.costs.totalInputTokens =
        (⟨⟨7, 8, 0, []⟩, none⟩ : CostTracker).costs.totalInputTokens + 5 ∧
      (addUsage ⟨⟨7, 8, 0, []⟩, none⟩ 5 6 "gpt-5" "2026-10-12").1.costs.totalOutputTokens =
        (⟨⟨7, 8, 0, []⟩, none⟩ : CostTracker).costs.totalOutputTokens + 6 ∧
      (addUsage ⟨⟨7, 8, 0, []⟩, none⟩ 5 6 "gpt-5" "2026-10-12").1.costs.totalCost =
        (⟨⟨7, 8, 0, []⟩, none⟩ : CostTracker).costs.totalCost ∧
      (addUsage ⟨⟨7, 8, 0, []⟩, none⟩ 5 6 "gpt-5" "2026-10-12").1.costs.dailyCosts =
        (⟨⟨7, 8, 0, []⟩, none⟩ : CostTracker).costs.dailyCosts ∧
      (addUsage ⟨⟨7, 8, 0, []⟩, none⟩ 5 6 "gpt-5" "2026-10-12").1.ledgerFile =
        (⟨⟨7, 8, 0, []⟩, none⟩ : CostTracker).ledgerFile) :=
  ⟨by rfl,
    C10_cost_tracker_nonatomic ⟨⟨7, 8, 0, []⟩, none⟩ 5 6 "gpt-5" "2026-10-12"
      (by rfl)⟩

end EmailIntel
